import Mathlib

/-!
Verification of the go-env library (igwtcode/go-env): a shallow embedding of
the tag-driven environment-variable resolution and coercion engine of
src/env.go, the tag option constants of src/internal/topt/topt.go, and the
AWS domain validators, together with theorems settling the specification
claims about candidate-name resolution, tag parsing, slice handling, numeric
range checks, scalar coercion and the validation pipeline.

The Go process environment is modelled as a total function from names to
strings: os.Getenv returns the empty string for an unset variable, so an
unset name and a name set to the empty string are indistinguishable, exactly
as in the library. Go string helpers (strings.Split, strings.TrimSpace,
strings.ToLower, strings.ToUpper, strings.Join, strconv.ParseInt,
strconv.ParseUint, strconv.ParseFloat, strconv.ParseBool) are embedded as
structurally recursive Lean functions over character lists so that every
definition evaluates inside the kernel. Numbers are modelled exactly:
machine integers as Int/Nat with explicit two's-complement truncation
modulo 2 ^ width where the Go code converts, and float64 bound comparison
over the rationals (exact for the decimal numerals the library compares,
which are well inside the 2 ^ 53 range where float64 is exact).
-/

namespace GoEnv

/-- Models the Go Parser struct of src/env.go: the three configurable
settings (tag option separator, slice value separator, name prefix). -/
structure Parser where
  TagOptionSeparator : String
  SliceValueSeparator : String
  NamePrefix : String
deriving DecidableEq

/-- Models NewParser() of src/env.go: default separators "," and "|",
empty name prefix. -/
def NewParser : Parser := ⟨",", "|", ""⟩

/-- The environment store: os.Getenv as a total function, returning "" for
unset names (Go collapses unset and empty). -/
abbrev EnvMap := String → String

/-- A parsed tag option set, in source order. Go stores options in a map
with later duplicate keys overwriting earlier ones; lookups below take the
last matching entry, which reproduces the map semantics. -/
abbrev Options := List (String × String)

/-- Lookup in a parsed option set with Go map semantics: the last write to
a key wins. Returns none when the key was never inserted. -/
def optLookup (o : Options) (k : String) : Option String :=
  o.foldl (fun acc kv => if kv.1 = k then some kv.2 else acc) none

/-- Models strings.HasPrefix on character lists, returning the remainder
after the prefix when it matches. -/
def stripPre? : List Char → List Char → Option (List Char)
  | [], l => some l
  | _ :: _, [] => none
  | a :: pa, b :: pb => if a = b then stripPre? pa pb else none

/-- Fuel-bounded splitting worker for goSplit. The fuel is at least the
length of the scanned list, so the zero-fuel branch is never reached on the
arguments goSplit passes. -/
def goSplitAux (sep : List Char) : Nat → List Char → List Char → List (List Char)
  | _, cur, [] => [cur.reverse]
  | 0, cur, l => [cur.reverse ++ l]
  | fuel + 1, cur, c :: rest =>
    match stripPre? sep (c :: rest) with
    | some remainder => cur.reverse :: goSplitAux sep fuel [] remainder
    | none => goSplitAux sep fuel (c :: cur) rest

/-- Models strings.Split(s, sep) for a non-empty separator (the library
separators are non-empty); an empty separator explodes into characters as
in Go. -/
def goSplit (s sep : String) : List String :=
  if sep.data = [] then s.data.map (fun c => ⟨[c]⟩)
  else (goSplitAux sep.data (s.data.length + 1) [] s.data).map (fun l => ⟨l⟩)

/-- The whitespace set of Go unicode.IsSpace restricted to Latin-1:
space, tab, newline, vertical tab, form feed, carriage return, NEL and
no-break space. -/
def isSpaceChar (c : Char) : Bool :=
  c = ' ' || c = '\t' || c = '\n' || c = '\x0b' || c = '\x0c' || c = '\r' ||
    c = '\x85' || c = '\xA0'

/-- Models strings.TrimSpace (over the Latin-1 whitespace set). -/
def goTrimSpace (s : String) : String :=
  ⟨((s.data.dropWhile isSpaceChar).reverse.dropWhile isSpaceChar).reverse⟩

/-- ASCII lowercase letter test. -/
def isLowerAlpha (c : Char) : Bool := 'a' ≤ c && c ≤ 'z'

/-- ASCII uppercase letter test. -/
def isUpperAlpha (c : Char) : Bool := 'A' ≤ c && c ≤ 'Z'

/-- Models strings.ToLower on the ASCII range (tag keys and field names in
the library are ASCII). -/
def goToLower (s : String) : String :=
  ⟨s.data.map (fun c => if isUpperAlpha c then Char.ofNat (c.toNat + 32) else c)⟩

/-- Models strings.ToUpper on the ASCII range. -/
def goToUpper (s : String) : String :=
  ⟨s.data.map (fun c => if isLowerAlpha c then Char.ofNat (c.toNat - 32) else c)⟩

/-- Models strings.Join. -/
def goJoin (sep : String) : List String → String
  | [] => ""
  | [s] => s
  | s :: rest => s ++ sep ++ goJoin sep rest

/-- Splits one tag segment at the first "=" into key and optional value,
modelling strings.SplitN(part, "=", 2) of parseTag. -/
def breakOnChar (ch : Char) : List Char → Option (List Char × List Char)
  | [] => none
  | c :: rest =>
    if c = ch then some ([], rest)
    else (breakOnChar ch rest).map (fun pr => (c :: pr.1, pr.2))

/-- The (key, value?) pair of one tag segment: key is everything before the
first "=", value the verbatim remainder (absent when there is no "="). -/
def splitKV (part : String) : String × Option String :=
  match breakOnChar '=' part.data with
  | none => (part, none)
  | some (k, v) => (⟨k⟩, some ⟨v⟩)

/-- Models (p *Parser).parseTag of src/env.go: split the tag by the option
separator; for each segment split at the first "=", lowercase and trim the
key, keep the value verbatim (empty when absent). -/
def parseTag (p : Parser) (tag : String) : Options :=
  (goSplit tag p.TagOptionSeparator).map fun part =>
    let kv := splitKV part
    (goTrimSpace (goToLower kv.1), kv.2.getD "")

/-- Models the ap closure of getEnvNames in src/env.go: prefix each name
and append it unless the accumulated list already contains it. -/
def addPrefixedUnique (pre : String) (acc : List String) (sl : List String) : List String :=
  sl.foldl
    (fun acc s =>
      let v := pre ++ s
      if acc.contains v then acc else acc ++ [v])
    acc

/-- Models getEnvNames of src/env.go: candidates from the name option
(split by the slice value separator, only when present and non-empty),
then the field name, its uppercase and its lowercase form, each prefixed
with the configured name prefix before the containment check. -/
def getEnvNames (fieldName : String) (o : Options) (p : Parser) : List String :=
  let base :=
    match optLookup o "name" with
    | some n =>
      if n = "" then []
      else addPrefixedUnique p.NamePrefix [] (goSplit n p.SliceValueSeparator)
    | none => []
  addPrefixedUnique p.NamePrefix base [fieldName, goToUpper fieldName, goToLower fieldName]

/-- Models getEnvValue of src/env.go: first candidate whose environment
value is non-empty wins; otherwise the empty string. -/
def getEnvValue (env : EnvMap) : List String → String
  | [] => ""
  | n :: rest => if env n = "" then getEnvValue env rest else env n

/-- Keep the first occurrence of each element, dropping later duplicates
without reordering (the de-duplication policy the spec describes). -/
def dedupFirst (l : List String) : List String :=
  l.foldl (fun acc v => if acc.contains v then acc else acc ++ [v]) []

/-- Decimal digit string to Nat. -/
def digitsToNat (l : List Char) : Nat :=
  l.foldl (fun a c => a * 10 + (c.toNat - '0'.toNat)) 0

/-- A non-empty all-digit run parsed to Nat, none otherwise. -/
def parseDigitsNat (l : List Char) : Option Nat :=
  if l ≠ [] ∧ l.all (fun c => c.isDigit) then some (digitsToNat l) else none

/-- Models strconv.ParseInt(s, 10, 64): optional single leading sign,
base-10 digits, 64-bit signed range check. -/
def parseInt64 (s : String) : Option Int :=
  let core : Option Int :=
    match s.data with
    | '-' :: r => (parseDigitsNat r).map (fun m => -(m : Int))
    | '+' :: r => (parseDigitsNat r).map (fun m => (m : Int))
    | r => (parseDigitsNat r).map (fun m => (m : Int))
  match core with
  | none => none
  | some v => if -(2 ^ 63 : Int) ≤ v ∧ v ≤ 2 ^ 63 - 1 then some v else none

/-- Models strconv.ParseUint(s, 10, 64): base-10 digits only (no sign
prefix is permitted), 64-bit unsigned range check. -/
def parseUint64 (s : String) : Option Nat :=
  match parseDigitsNat s.data with
  | none => none
  | some m => if m ≤ 2 ^ 64 - 1 then some m else none

/-- Models strconv.ParseFloat(s, 64) on decimal and exponent notation (the
forms the library compares bounds with; hex floats, Inf and NaN spellings
are outside the option grammar used by the library), exactly over ℚ. -/
def parseDecimal (s : String) : Option ℚ :=
  let (sgn, r1) :=
    match s.data with
    | '-' :: r => ((-1 : ℚ), r)
    | '+' :: r => ((1 : ℚ), r)
    | r => ((1 : ℚ), r)
  let ip := r1.takeWhile (fun c => c.isDigit)
  let r2 := r1.drop ip.length
  let (fp, r3) :=
    match r2 with
    | '.' :: r => (r.takeWhile (fun c => c.isDigit), r.drop (r.takeWhile (fun c => c.isDigit)).length)
    | r => (([] : List Char), r)
  if ip = [] ∧ fp = [] then none
  else
    let mant : ℚ := (digitsToNat ip : ℚ) + (digitsToNat fp : ℚ) / (10 : ℚ) ^ fp.length
    match r3 with
    | [] => some (sgn * mant)
    | e :: r4 =>
      if e = 'e' ∨ e = 'E' then
        let (eneg, r5) :=
          match r4 with
          | '-' :: r => (true, r)
          | '+' :: r => (false, r)
          | r => (false, r)
        match parseDigitsNat r5 with
        | none => none
        | some ex =>
          some (if eneg then sgn * mant / (10 : ℚ) ^ ex else sgn * mant * (10 : ℚ) ^ ex)
      else none

/-- Models strconv.ParseBool: exactly the twelve accepted spellings. -/
def parseBool (s : String) : Option Bool :=
  if s = "1" ∨ s = "t" ∨ s = "T" ∨ s = "true" ∨ s = "TRUE" ∨ s = "True" then some true
  else if s = "0" ∨ s = "f" ∨ s = "F" ∨ s = "false" ∨ s = "FALSE" ∨ s = "False" then some false
  else none

/-- The reflect.Kind of a non-struct, non-slice field as the library
dispatches on it in setReflectValue: the five supported families, plus the
kinds that fall into the default (unsupported) branch. Integer and float
widths are in bits. -/
inductive Kind where
  | kString
  | kInt (w : Nat)
  | kUint (w : Nat)
  | kFloat (w : Nat)
  | kBool
  | kMap
  | kPtr
  | kChan
  | kFunc
  | kInterface
  | kComplex (w : Nat)
  | kArray
  | kUintptr
deriving DecidableEq

/-- A typed Go value as written into a struct field. Float values keep the
exact rational the decimal numeral denotes (float32 narrowing of SetFloat
is not modelled; no claim depends on it). -/
inductive GoValue where
  | str (s : String)
  | int (w : Nat) (n : Int)
  | uint (w : Nat) (n : Nat)
  | float (w : Nat) (q : ℚ)
  | bool (b : Bool)
deriving DecidableEq

/-- The dynamic argument of checkMinMax / compareNumeric: the Go code
passes an int64, a uint64 or a float64 through interface{}. -/
inductive NumVal where
  | i64 (n : Int)
  | u64 (n : Nat)
  | f64 (q : ℚ)
deriving DecidableEq

/-- Models compareNumeric of src/env.go. The Go type switch has cases for
int64 and float64 only; a uint64 value falls through to the final
`return 0`, so unsigned values always compare as equal to the threshold.
The int64 and float64 comparisons are exact here where Go converts through
float64 (exact below 2 ^ 53, which covers every bound the claims touch). -/
def compareNumeric (val : NumVal) (threshold : ℚ) : Int :=
  match val with
  | .i64 v => if (v : ℚ) < threshold then -1 else if threshold < (v : ℚ) then 1 else 0
  | .f64 v => if v < threshold then -1 else if threshold < v then 1 else 0
  | .u64 _ => 0

/-- The max half of checkMinMax of src/env.go. -/
def checkMaxOnly (val : NumVal) (o : Options) : Except String Unit :=
  match optLookup o "max" with
  | some maxStr =>
    match parseDecimal maxStr with
    | none => .error ("invalid max value: " ++ maxStr)
    | some mx =>
      if 0 < compareNumeric val mx then .error "value is greater than maximum allowed"
      else .ok ()
  | none => .ok ()

/-- Models checkMinMax of src/env.go: parse the min bound as float64 and
fail when the value compares below it, then the same for max above. -/
def checkMinMax (val : NumVal) (o : Options) : Except String Unit :=
  match optLookup o "min" with
  | some minStr =>
    match parseDecimal minStr with
    | none => .error ("invalid min value: " ++ minStr)
    | some mn =>
      if compareNumeric val mn < 0 then .error "value is less than minimum allowed"
      else checkMaxOnly val o
  | none => checkMaxOnly val o

/-- Two's-complement truncation of an int64 to a signed field of width w,
modelling the plain Go conversion reflect.Value.SetInt performs. -/
def signedTrunc (w : Nat) (n : Int) : Int :=
  let m := n % (2 ^ w : Int)
  if 2 ^ (w - 1) ≤ m then m - 2 ^ w else m

/-- Truncation of a uint64 to an unsigned field of width w, modelling the
plain Go conversion reflect.Value.SetUint performs. -/
def unsignedTrunc (w : Nat) (n : Nat) : Nat := n % 2 ^ w

/-- Models setReflectValue of src/env.go: dispatch on the field kind,
parse (64-bit for the integer families, as strconv is called with
bitSize 64), run checkMinMax on the parsed value, then assign with the
width conversion of SetInt / SetUint; every other kind is the default
branch returning the unsupported-field-type error. Parse errors stand in
for the strconv error values the Go code returns verbatim. -/
def setReflectValue (val : String) (kind : Kind) (o : Options) : Except String GoValue :=
  match kind with
  | .kString => .ok (.str val)
  | .kInt w =>
    match parseInt64 val with
    | none => .error "invalid numeric value"
    | some n =>
      match checkMinMax (.i64 n) o with
      | .error e => .error e
      | .ok _ => .ok (.int w (signedTrunc w n))
  | .kUint w =>
    match parseUint64 val with
    | none => .error "invalid numeric value"
    | some n =>
      match checkMinMax (.u64 n) o with
      | .error e => .error e
      | .ok _ => .ok (.uint w (unsignedTrunc w n))
  | .kFloat w =>
    match parseDecimal val with
    | none => .error "invalid numeric value"
    | some q =>
      match checkMinMax (.f64 q) o with
      | .error e => .error e
      | .ok _ => .ok (.float w q)
  | .kBool =>
    match parseBool val with
    | none => .error "invalid boolean value"
    | some b => .ok (.bool b)
  | _ => .error "unsupported field type"

/-- The kinds setReflectValue supports (everything else hits its default
branch). -/
def isSupportedScalarKind : Kind → Bool
  | .kString | .kInt _ | .kUint _ | .kFloat _ | .kBool => true
  | _ => false

/-- Matches the awsRegionRgx pattern of the validators file:
two lowercase letters, a hyphen, one or more lowercase letters or hyphens,
a hyphen, one or more digits, anchored at both ends. The trailing digit
run of the pattern is necessarily the maximal digit suffix, which makes
the match decision below equivalent to the regular expression. -/
def awsRegionMatch (s : String) : Bool :=
  match s.data with
  | c0 :: c1 :: '-' :: rest =>
    isLowerAlpha c0 && isLowerAlpha c1 &&
      (let r := rest.reverse
       let ds := r.takeWhile (fun c => c.isDigit)
       let rm := r.drop ds.length
       !ds.isEmpty &&
         match rm with
         | '-' :: midRev => !midRev.isEmpty && midRev.all (fun c => isLowerAlpha c || c = '-')
         | _ => false)
  | _ => false

/-- Matches the awsAccountIdRgx pattern: exactly twelve decimal digits. -/
def awsAccountIdMatch (s : String) : Bool :=
  s.data.length == 12 && s.data.all (fun c => c.isDigit)

/-- Matches the awsBucketNameRgx pattern: 3 to 63 characters, each a
lowercase letter, digit, period or hyphen. -/
def awsBucketNameMatch (s : String) : Bool :=
  decide (3 ≤ s.data.length) && decide (s.data.length ≤ 63) &&
    s.data.all (fun c => isLowerAlpha c || c.isDigit || c = '.' || c = '-')

/-- Two consecutive periods somewhere in the character list, modelling
strings.Contains(name, ".."). -/
def hasConsecutiveDots : List Char → Bool
  | '.' :: '.' :: _ => true
  | _ :: rest => hasConsecutiveDots rest
  | [] => false

/-- The character class of the role name in awsRoleArnRgx, transcribed
from the regular expression source: [a-zA-Z_+=,.@\-]. The class contains
no digits. -/
def roleNameChar (c : Char) : Bool :=
  isLowerAlpha c || isUpperAlpha c || c = '_' || c = '+' || c = '=' || c = ',' ||
    c = '.' || c = '@' || c = '-'

/-- Matches the awsRoleArnRgx pattern: the literal arn:aws:iam:: prefix,
exactly twelve digits, the literal :role/ infix, then 1 to 64 characters
of roleNameChar, anchored at both ends. -/
def awsRoleArnMatch (s : String) : Bool :=
  match stripPre? "arn:aws:iam::".data s.data with
  | none => false
  | some rest =>
    (rest.take 12).length == 12 && (rest.take 12).all (fun c => c.isDigit) &&
      match stripPre? ":role/".data (rest.drop 12) with
      | none => false
      | some nm => decide (1 ≤ nm.length) && decide (nm.length ≤ 64) && nm.all roleNameChar

/-- Models vAwsRegion of the validators file. -/
def vAwsRegion (region : String) : Except String Unit :=
  if awsRegionMatch region then .ok ()
  else .error ("invalid AWS region name: " ++ region ++ ". Expected format: xx-xxxx-00")

/-- Models vAwsAccountID of the validators file. -/
def vAwsAccountID (id : String) : Except String Unit :=
  if awsAccountIdMatch id then .ok ()
  else .error ("invalid AWS account ID: " ++ id ++ ". Must be a 12-digit number")

/-- Models vAwsBucketName of the validators file: the base pattern, then
no leading or trailing period or hyphen, then no consecutive periods. -/
def vAwsBucketName (name : String) : Except String Unit :=
  if !awsBucketNameMatch name then
    .error ("invalid AWS bucket name: " ++ name ++
      ". Must be between 3 and 63 characters long, containing only lowercase letters, numbers, hyphens, and periods")
  else if name.startsWith "." || name.startsWith "-" || name.endsWith "." || name.endsWith "-" then
    .error ("invalid AWS bucket name: " ++ name ++ ". Must not start or end with a period or hyphen")
  else if hasConsecutiveDots name.data then
    .error ("invalid AWS bucket name: " ++ name ++ ". Must not contain consecutive periods")
  else .ok ()

/-- Models vAwsRoleArn of the validators file. -/
def vAwsRoleArn (arn : String) : Except String Unit :=
  if awsRoleArnMatch arn then .ok ()
  else .error ("invalid AWS role ARN: " ++ arn ++
    ". Must be in the format arn:aws:iam::account-id:role/role-name")

/-- The keys of awsValidationMap (src/internal/topt constants). -/
def awsValidatorKeys : List String :=
  ["v_aws_region", "v_aws_account_id", "v_aws_bucket_name", "v_aws_role_arn"]

/-- The validator function awsValidationMap associates with a key. -/
def awsValidationFn (key : String) : String → Except String Unit :=
  if key = "v_aws_region" then vAwsRegion
  else if key = "v_aws_account_id" then vAwsAccountID
  else if key = "v_aws_bucket_name" then vAwsBucketName
  else if key = "v_aws_role_arn" then vAwsRoleArn
  else fun _ => .ok ()

/-- Models checkForAwsValidation of src/env.go: a field that is not
required and resolved to the empty value returns early before anything
else; then the v_aws options present are counted, two or more is the
exclusivity error (the Go loop errors as soon as its counter passes one,
for any map iteration order), and exactly one selects that validator. -/
def checkForAwsValidation (fieldName : String) (envVal : String) (o : Options) : Except String Unit :=
  if optLookup o "required" = none ∧ envVal = "" then .ok ()
  else
    let present := awsValidatorKeys.filter (fun k => (optLookup o k).isSome)
    if 2 ≤ present.length then
      .error ("multiple v_aws validation options provided for field " ++ fieldName ++
        ": only one is allowed")
    else
      match present with
      | [k] => awsValidationFn k envVal
      | _ => .ok ()

/-- The value-resolution steps the Unmarshal loop of src/env.go applies to
one annotated non-struct field before type dispatch: candidate lookup,
trim unless notrim, default substitution on empty, the required check
(naming all candidates joined by the slice value separator), then lower
and upper casing in that order. -/
def resolveEnvString (p : Parser) (env : EnvMap) (fieldName : String) (o : Options) :
    Except String String :=
  let envNames := getEnvNames fieldName o p
  let v0 := getEnvValue env envNames
  let v1 := if (optLookup o "notrim").isSome then v0 else goTrimSpace v0
  let dflt := (optLookup o "default").getD ""
  let v2 := if v1 = "" ∧ dflt ≠ "" then dflt else v1
  if (optLookup o "required").isSome ∧ v2 = "" then
    .error ("environment variable " ++ goJoin p.SliceValueSeparator envNames ++
      " is required but not set")
  else
    let v3 := if (optLookup o "lower").isSome then goToLower v2 else v2
    let v4 := if (optLookup o "upper").isSome then goToUpper v3 else v3
    .ok v4

/-- Models handleSliceWithSeparator of src/env.go: an empty value is an
empty slice; otherwise split by the separator, and for each item either
keep it verbatim (notrim present) or trim it and keep it only when the
trimmed item is non-empty; an empty filtered list is an empty slice, and
otherwise every filtered item is coerced to the element kind in order. -/
def handleSliceWithSeparator (envVal : String) (o : Options) (separator : String)
    (elemKind : Kind) : Except String (List GoValue) :=
  if envVal = "" then .ok []
  else
    let keepRaw := (optLookup o "notrim").isSome
    let values := goSplit envVal separator
    let filteredValues := values.foldl
      (fun acc v =>
        if keepRaw then acc ++ [v]
        else if goTrimSpace v = "" then acc else acc ++ [goTrimSpace v])
      []
    if filteredValues = [] then .ok []
    else filteredValues.mapM (fun v => setReflectValue v elemKind o)

/-- The surviving slice items stated declaratively (the spec side of the
slice-filtering claim): verbatim split items under notrim, otherwise the
non-empty trimmed items. -/
def specSliceItems (envVal : String) (o : Options) (separator : String) : List String :=
  if envVal = "" then []
  else if (optLookup o "notrim").isSome then goSplit envVal separator
  else (goSplit envVal separator).filterMap
    (fun v => if goTrimSpace v = "" then none else some (goTrimSpace v))

mutual
/-- The type shape of one struct field as the reflection loop of Unmarshal
classifies it: a non-struct non-slice kind, a slice with its element kind,
or a nested struct with its own fields. -/
inductive FieldType where
  | scalar (k : Kind)
  | sliceOf (k : Kind)
  | nested (fs : Fields)

/-- The fields of a struct in declaration order: name, settability
(exported or not), the env tag (none when the field has no env tag at
all), and the field type. -/
inductive Fields where
  | nil
  | cons (name : String) (settable : Bool) (tag : Option String) (ty : FieldType) (rest : Fields)
end

mutual
/-- The resolved outcome of one field after a successful Unmarshal. -/
inductive OutField where
  | unset
  | scalarV (v : GoValue)
  | sliceV (vs : List GoValue)
  | nestedV (fs : OutFields)

/-- The resolved outcomes of a field list. -/
inductive OutFields where
  | nil
  | cons (f : OutField) (rest : OutFields)
end

/-- The Unmarshal loop body for an annotated non-struct non-slice field:
resolve the string value, run the AWS validation hook, then setValue. -/
def processScalarField (p : Parser) (env : EnvMap) (name : String) (tag : Option String)
    (k : Kind) : Except String OutField :=
  match tag with
  | none => .ok .unset
  | some tagVal =>
    let o := parseTag p tagVal
    match resolveEnvString p env name o with
    | .error e => .error e
    | .ok v =>
      match checkForAwsValidation name v o with
      | .error e => .error e
      | .ok _ =>
        match setReflectValue v k o with
        | .error e => .error e
        | .ok gv => .ok (.scalarV gv)

/-- The Unmarshal loop body for an annotated slice field: resolve the
string value, then split and coerce; the AWS validation hook is not run
for slices (the loop continues before reaching it). -/
def processSliceField (p : Parser) (env : EnvMap) (name : String) (tag : Option String)
    (k : Kind) : Except String OutField :=
  match tag with
  | none => .ok .unset
  | some tagVal =>
    let o := parseTag p tagVal
    match resolveEnvString p env name o with
    | .error e => .error e
    | .ok v =>
      match handleSliceWithSeparator v o p.SliceValueSeparator k with
      | .error e => .error e
      | .ok vs => .ok (.sliceV vs)

/-- Models (p *Parser).Unmarshal of src/env.go over a field list:
non-settable fields are skipped, struct fields are recursed into
regardless of tag, untagged fields are skipped, and the first error of
any field (in declaration order, recursion included) aborts the call. -/
def unmarshalFields (p : Parser) (env : EnvMap) : Fields → Except String OutFields
  | .nil => .ok .nil
  | .cons name settable tag ty rest =>
    let head : Except String OutField :=
      if settable then
        match ty with
        | .nested fs =>
          match unmarshalFields p env fs with
          | .error e => .error e
          | .ok ofs => .ok (.nestedV ofs)
        | .scalar k => processScalarField p env name tag k
        | .sliceOf k => processSliceField p env name tag k
      else .ok .unset
    match head with
    | .error e => .error e
    | .ok ohead =>
      match unmarshalFields p env rest with
      | .error e => .error e
      | .ok orest => .ok (.cons ohead orest)

/-- The tag option keywords the library reads anywhere in the pipeline
(src/internal/topt/topt.go). -/
def recognizedTagKeys : List String :=
  ["name", "default", "required", "notrim", "lower", "upper", "min", "max",
   "v_aws_region", "v_aws_account_id", "v_aws_bucket_name", "v_aws_role_arn"]

end GoEnv

namespace GoEnv

/-- getEnvValue is exactly: the environment value of the first candidate
whose value is non-empty, and "" when there is none. -/
theorem getEnvValue_eq_find (env : EnvMap) (names : List String) :
    getEnvValue env names = (((names.find? fun n => env n != "").map env).getD "") := by
  induction names with
  | nil => rfl
  | cons n rest ih =>
    by_cases h : env n = ""
    · rw [getEnvValue, if_pos h, List.find?_cons_of_neg, ih]
      simp [h]
    · rw [getEnvValue, if_neg h, List.find?_cons_of_pos]
      · simp
      · simp [h]

/-- C1: for an annotated non-nested field, the resolved raw value is the
environment value of the first candidate name, in candidate-list order,
whose value is a non-empty string; unset candidates and candidates set to
the empty string are skipped identically (the environment model returns ""
for both, as os.Getenv does), and when no candidate has a non-empty value
the raw value is the empty string. -/
theorem c1_raw_value_is_first_nonempty_candidate (env : EnvMap) (fieldName : String)
    (o : Options) (p : Parser) :
    getEnvValue env (getEnvNames fieldName o p)
      = ((((getEnvNames fieldName o p).find? fun n => env n != "").map env).getD "") :=
  getEnvValue_eq_find env (getEnvNames fieldName o p)

/-- addPrefixedUnique is the first-occurrence fold over the prefixed
names. -/
theorem addPrefixedUnique_eq (pre : String) (acc : List String) (sl : List String) :
    addPrefixedUnique pre acc sl
      = (sl.map (fun s => pre ++ s)).foldl
          (fun acc v => if acc.contains v then acc else acc ++ [v]) acc := by
  rw [addPrefixedUnique, List.foldl_map]

/-- C2: the candidate lookup list is the name-option entries (split by the
list separator, in listed order), then the declared field name, its
uppercase form and its lowercase form, each prefixed with the configured
name prefix before de-duplication, where de-duplication keeps the first
occurrence of each prefixed name and drops later duplicates without
reordering. -/
theorem c2_candidate_list_order_prefix_dedup (fieldName : String) (o : Options) (p : Parser) :
    (∀ n, optLookup o "name" = some n → n ≠ "" →
      getEnvNames fieldName o p
        = dedupFirst ((goSplit n p.SliceValueSeparator ++
            [fieldName, goToUpper fieldName, goToLower fieldName]).map
              (fun s => p.NamePrefix ++ s)))
    ∧ (optLookup o "name" = none →
      getEnvNames fieldName o p
        = dedupFirst ([fieldName, goToUpper fieldName, goToLower fieldName].map
            (fun s => p.NamePrefix ++ s))) := by
  constructor
  · intro n hn hne
    simp only [getEnvNames, hn, if_neg hne, addPrefixedUnique_eq, dedupFirst,
      List.map_append, List.foldl_append]
  · intro hn
    simp only [getEnvNames, hn, addPrefixedUnique_eq, dedupFirst]

/-- Witness for C2 at a concrete field: name=A|B with prefix P_ on field
Port yields the prefixed, first-occurrence-deduplicated candidate list. -/
theorem c2_candidate_list_witness :
    getEnvNames "Port" [("name", "A|B")] ⟨",", "|", "P_"⟩
      = ["P_A", "P_B", "P_Port", "P_PORT", "P_port"] := by
  have h := (c2_candidate_list_order_prefix_dedup "Port" [("name", "A|B")]
    ⟨",", "|", "P_"⟩).1 "A|B" rfl (by decide)
  rw [h]
  rfl

/-- The verbatim-keep fold of handleSliceWithSeparator under notrim. -/
theorem slice_foldl_keepRaw (values acc : List String) :
    values.foldl (fun acc v => acc ++ [v]) acc = acc ++ values := by
  induction values generalizing acc with
  | nil => simp
  | cons v rest ih => simp [List.foldl, ih]

/-- The trim-and-drop fold of handleSliceWithSeparator without notrim. -/
theorem slice_foldl_trim (values acc : List String) :
    values.foldl
        (fun acc v => if goTrimSpace v = "" then acc else acc ++ [goTrimSpace v]) acc
      = acc ++ values.filterMap
          (fun v => if goTrimSpace v = "" then none else some (goTrimSpace v)) := by
  induction values generalizing acc with
  | nil => simp
  | cons v rest ih =>
    by_cases h : goTrimSpace v = ""
    · simp [List.foldl, List.filterMap_cons, h, ih]
    · simp [List.foldl, List.filterMap_cons, h, ih]

/-- handleSliceWithSeparator equals coercing the declaratively filtered
items in order (the empty-filtered short-circuit coincides with mapM over
the empty list). -/
theorem handleSlice_eq_spec (envVal : String) (o : Options) (sep : String) (k : Kind) :
    handleSliceWithSeparator envVal o sep k
      = (specSliceItems envVal o sep).mapM (fun v => setReflectValue v k o) := by
  by_cases h : envVal = ""
  · simp [handleSliceWithSeparator, specSliceItems, h]
    rfl
  · by_cases hn : (optLookup o "notrim").isSome
    · simp only [handleSliceWithSeparator, specSliceItems, h, hn, if_neg h, if_true,
        if_false, slice_foldl_keepRaw, List.nil_append]
      by_cases he : goSplit envVal sep = []
      · simp [he]
        rfl
      · simp [he]
    · simp only [handleSliceWithSeparator, specSliceItems, h, hn, if_neg h,
        Bool.false_eq_true, if_false, slice_foldl_trim, List.nil_append]
      by_cases he : (goSplit envVal sep).filterMap
          (fun v => if goTrimSpace v = "" then none else some (goTrimSpace v)) = []
      · simp [he]
        rfl
      · simp [he]

/-- C3 counterexample: with notrim set, an item that is empty is kept, not
dropped: "a||b" yields a three-element slice whose middle element is the
empty string, where the claim requires the two-element slice. -/
theorem c3_counterexample_notrim_keeps_empty_items :
    handleSliceWithSeparator "a||b" [("notrim", "")] "|" Kind.kString
      = .ok [.str "a", .str "", .str "b"] := rfl

/-- C3 amended: the value is split on the list separator; without notrim
each item is trimmed and dropped when the trimmed item is empty, while
with notrim every split item is kept verbatim, empty items included; the
surviving items are coerced to the element kind in order; an empty value
always yields a zero-length slice, and an all-empty-after-split value such
as "|||" yields a zero-length slice when notrim is absent. -/
theorem c3_slice_split_filter_coerce (envVal sep : String) (o : Options) (k : Kind) :
    handleSliceWithSeparator envVal o sep k
        = (specSliceItems envVal o sep).mapM (fun v => setReflectValue v k o)
      ∧ handleSliceWithSeparator "" o sep k = .ok []
      ∧ (optLookup o "notrim" = none →
          handleSliceWithSeparator "|||" o "|" k = .ok []) := by
  refine ⟨handleSlice_eq_spec envVal o sep k, rfl, fun h => ?_⟩
  rw [handleSlice_eq_spec]
  have hs : specSliceItems "|||" o "|" = [] := by
    simp only [specSliceItems, h, Option.isSome_none, Bool.false_eq_true, if_false]
    rfl
  rw [hs]
  rfl

/-- Witness for C3 at concrete inputs: the three-host round trip and the
all-empty split, both with default options. -/
theorem c3_slice_witness :
    handleSliceWithSeparator "host1|host2|host3" [] "|" Kind.kString
        = .ok [.str "host1", .str "host2", .str "host3"]
      ∧ handleSliceWithSeparator "|||" [] "|" Kind.kString = .ok [] := by
  have h := c3_slice_split_filter_coerce "host1|host2|host3" "|" [] Kind.kString
  exact ⟨h.1.trans rfl, h.2.2 rfl⟩

/-- C4: the out-of-range check is dead for unsigned fields. The Go
compareNumeric type switch handles int64 and float64 but not uint64, so an
unsigned value always compares equal to every bound: the value 5 under
min=10,max=20 is accepted, where the claim requires a fatal out-of-range
error. The signed and floating branches do compare inclusively. -/
theorem c4_uint_bounds_not_enforced :
    setReflectValue "5" (Kind.kUint 64) [("min", "10"), ("max", "20")]
        = .ok (.uint 64 5)
      ∧ compareNumeric (.u64 5) 10 = 0 := ⟨rfl, rfl⟩

/-- C5 counterexample: "300" on an 8-bit signed field does not fail; the
value parses at 64-bit width, the width conversion of SetInt truncates it
to 44, and no invalid-numeric-value error is raised. -/
theorem c5_counterexample_width_truncates :
    setReflectValue "300" (Kind.kInt 8) [] = .ok (.int 8 44) := rfl

/-- C5 amended: signed coercion parses the value as base-10 at 64-bit
width: it fails with the invalid-numeric-value error exactly when
strconv.ParseInt(s, 10, 64) fails (non-numeric text or out of the 64-bit
signed range; unsigned targets additionally reject any leading sign, as
parseUint64 admits digits only), and on success the field holds the parsed
value reduced two's-complement modulo 2 ^ width — equal to the parsed
value whenever it fits the width, silently truncated otherwise. -/
theorem c5_int_coercion_parses_64bit_then_truncates (s : String) (w : Nat) :
    (∀ n, parseInt64 s = some n →
        setReflectValue s (Kind.kInt w) [] = .ok (.int w (signedTrunc w n))
          ∧ -(2 ^ 63 : Int) ≤ n ∧ n ≤ 2 ^ 63 - 1)
      ∧ (parseInt64 s = none →
          setReflectValue s (Kind.kInt w) [] = .error "invalid numeric value")
      ∧ (∀ m, parseUint64 s = some m →
          setReflectValue s (Kind.kUint w) [] = .ok (.uint w (unsignedTrunc w m)))
      ∧ (parseUint64 s = none →
          setReflectValue s (Kind.kUint w) [] = .error "invalid numeric value") := by
  refine ⟨fun n hn => ⟨?_, ?_⟩, fun hn => ?_, fun m hm => ?_, fun hm => ?_⟩
  · simp [setReflectValue, hn, checkMinMax, checkMaxOnly, optLookup]
  · rw [parseInt64] at hn
    rcases hcore : (match s.data with
      | '-' :: r => (parseDigitsNat r).map (fun m => -(m : Int))
      | '+' :: r => (parseDigitsNat r).map (fun m => (m : Int))
      | r => (parseDigitsNat r).map (fun m => (m : Int))) with _ | v
    · rw [hcore] at hn
      exact absurd hn (by simp)
    · rw [hcore] at hn
      have hn' : (if -(2 ^ 63 : Int) ≤ v ∧ v ≤ 2 ^ 63 - 1 then some v else none)
          = some n := hn
      by_cases hr : -(2 ^ 63 : Int) ≤ v ∧ v ≤ 2 ^ 63 - 1
      · rw [if_pos hr] at hn'
        injection hn' with hv
        exact hv ▸ hr
      · rw [if_neg hr] at hn'
        exact absurd hn' (by simp)
  · simp [setReflectValue, hn]
  · simp [setReflectValue, hm, checkMinMax, checkMaxOnly, optLookup]
  · simp [setReflectValue, hm]

/-- Witness for C5 at the concrete input of the counterexample: "300"
parses to 300, lies in the 64-bit range, and an 8-bit signed field
receives the truncation 44. -/
theorem c5_int_coercion_witness :
    setReflectValue "300" (Kind.kInt 8) [] = .ok (.int 8 44)
      ∧ -(2 ^ 63 : Int) ≤ 300 ∧ (300 : Int) ≤ 2 ^ 63 - 1 := by
  have h := (c5_int_coercion_parses_64bit_then_truncates "300" 8).1 300 rfl
  exact ⟨h.1.trans rfl, h.2.1, h.2.2⟩

/-- C6 counterexample: a field with two v_aws options that is not required
and resolved to the empty value passes without any error, where the claim
requires the multiple-exclusive-validators error regardless of value. -/
theorem c6_counterexample_optional_empty_skips_exclusivity :
    checkForAwsValidation "F" "" [("v_aws_region", ""), ("v_aws_bucket_name", "")]
      = .ok () := rfl

/-- C6 amended: a scalar field annotated with two or more v_aws options
fails with the multiple-exclusive-validators configuration error whenever
the required option is present or the resolved value is non-empty; an
optional field whose resolved value is empty returns early and is exempt
even from the exclusivity check. -/
theorem c6_multiple_validators_error_unless_optional_empty
    (fieldName envVal : String) (o : Options)
    (h : (optLookup o "required").isSome ∨ envVal ≠ "")
    (h2 : 2 ≤ (awsValidatorKeys.filter (fun k => (optLookup o k).isSome)).length) :
    checkForAwsValidation fieldName envVal o
      = .error ("multiple v_aws validation options provided for field " ++ fieldName ++
          ": only one is allowed") := by
  have hcond : ¬(optLookup o "required" = none ∧ envVal = "") := by
    rcases h with h | h
    · rintro ⟨h1, -⟩
      rw [h1] at h
      exact absurd h (by simp)
    · rintro ⟨-, h2'⟩
      exact h h2'
  simp only [checkForAwsValidation, if_neg hcond, if_pos h2]

/-- Witness for C6 at a concrete field: two v_aws options with a non-empty
value produce the exclusivity error. -/
theorem c6_multiple_validators_witness :
    checkForAwsValidation "BucketName" "my-default-bucket"
        [("v_aws_bucket_name", ""), ("v_aws_region", "")]
      = .error ("multiple v_aws validation options provided for field BucketName: only one is allowed") := by
  have h := c6_multiple_validators_error_unless_optional_empty "BucketName"
    "my-default-bucket" [("v_aws_bucket_name", ""), ("v_aws_region", "")]
    (Or.inr (by decide)) (by decide)
  exact h.trans rfl

/-- C7: the role-ARN validator rejects a role name containing a decimal
digit. The regular expression awsRoleArnRgx spells its role-name character
class as [a-zA-Z_+=,.@\-], without 0-9, so arn:aws:iam::123456789012:role/Role1
is rejected although the claim (and the validator doc comment, which says
the role name consists of letters, digits and special characters) admits
digits; a digit-free role name such as MyRole is accepted. -/
theorem c7_role_arn_rejects_digit_in_role_name :
    vAwsRoleArn "arn:aws:iam::123456789012:role/MyRole" = .ok ()
      ∧ vAwsRoleArn "arn:aws:iam::123456789012:role/Role1"
          = .error ("invalid AWS role ARN: arn:aws:iam::123456789012:role/Role1" ++
              ". Must be in the format arn:aws:iam::account-id:role/role-name") :=
  ⟨rfl, rfl⟩

/-- C8 counterexample: the mixed casing tRuE is rejected with the
invalid-boolean error, where the claim requires every casing of true to
parse case-insensitively. -/
theorem c8_counterexample_mixed_case_bool_rejected :
    setReflectValue "tRuE" Kind.kBool [] = .error "invalid boolean value" := rfl

/-- C8 amended: boolean coercion accepts exactly the twelve strconv
spellings — 1, t, T, true, TRUE, True for true and 0, f, F, false, FALSE,
False for false — and every other string, including other casings such as
tRuE and the strings 2, -1 and yes, is the fatal invalid-boolean error; no
numeric truthiness beyond exactly 1 and 0 is accepted. -/
theorem c8_bool_coercion_exact_spellings (s : String) :
    (setReflectValue s Kind.kBool [] = .ok (.bool true)
        ↔ s ∈ ["1", "t", "T", "true", "TRUE", "True"])
      ∧ (setReflectValue s Kind.kBool [] = .ok (.bool false)
          ↔ s ∈ ["0", "f", "F", "false", "FALSE", "False"])
      ∧ (s ∉ ["1", "t", "T", "true", "TRUE", "True",
              "0", "f", "F", "false", "FALSE", "False"] →
          setReflectValue s Kind.kBool [] = .error "invalid boolean value") := by
  by_cases ht : s = "1" ∨ s = "t" ∨ s = "T" ∨ s = "true" ∨ s = "TRUE" ∨ s = "True"
  · simp [setReflectValue, parseBool, ht]
    rcases ht with h | h | h | h | h | h <;> simp [h]
  · by_cases hf : s = "0" ∨ s = "f" ∨ s = "F" ∨ s = "false" ∨ s = "FALSE" ∨ s = "False"
    · simp [setReflectValue, parseBool, ht, hf]
    · simp [setReflectValue, parseBool, ht, hf]

/-- Witness for C8 at the concrete input yes: not one of the twelve
spellings, hence the invalid-boolean error. -/
theorem c8_bool_coercion_witness :
    setReflectValue "yes" Kind.kBool [] = .error "invalid boolean value" :=
  (c8_bool_coercion_exact_spellings "yes").2.2 (by decide)

/-- setReflectValue on a kind outside the five supported families is the
default branch: the unsupported-field-type error, for every value and
option set. -/
theorem setReflectValue_unsupported (v : String) (o : Options) (k : Kind)
    (hk : isSupportedScalarKind k = false) :
    setReflectValue v k o = .error "unsupported field type" := by
  cases k <;> simp_all [isSupportedScalarKind, setReflectValue]

/-- C9: an exported field carrying an env annotation whose kind is none of
string, signed or unsigned integer, float, bool, slice or nested struct
(maps, pointers, channels, functions, interfaces, complex numbers, arrays,
uintptr) makes Unmarshal return the unsupported-field-type error rather
than silently skipping the field, provided the value-resolution steps
(including the required check) and the domain-validator hook did not
already fail for it. -/
theorem c9_unannotatable_kind_is_unsupported_error (p : Parser) (env : EnvMap)
    (name tagVal : String) (k : Kind)
    (hk : isSupportedScalarKind k = false)
    (v : String)
    (hv : resolveEnvString p env name (parseTag p tagVal) = .ok v)
    (hval : checkForAwsValidation name v (parseTag p tagVal) = .ok ()) :
    processScalarField p env name (some tagVal) k = .error "unsupported field type"
      ∧ unmarshalFields p env (.cons name true (some tagVal) (.scalar k) .nil)
          = .error "unsupported field type" := by
  have h1 : processScalarField p env name (some tagVal) k
      = .error "unsupported field type" := by
    simp only [processScalarField, hv, hval, setReflectValue_unsupported v _ k hk]
  exact ⟨h1, by simp [unmarshalFields, h1]⟩

/-- Witness for C9 at a concrete map field with an empty annotation and an
empty environment: resolution succeeds with the empty value, the validator
hook passes, and the unsupported-field-type error is returned. -/
theorem c9_unsupported_kind_witness :
    processScalarField NewParser (fun _ => "") "M" (some "") Kind.kMap
        = .error "unsupported field type"
      ∧ unmarshalFields NewParser (fun _ => "")
            (.cons "M" true (some "") (.scalar .kMap) .nil)
          = .error "unsupported field type" :=
  c9_unannotatable_kind_is_unsupported_error NewParser (fun _ => "") "M" "" Kind.kMap
    rfl "" rfl rfl

/-- getEnvNames only consults the name option. -/
theorem getEnvNames_congr (o₁ o₂ : Options) (f : String) (p : Parser)
    (h : optLookup o₁ "name" = optLookup o₂ "name") :
    getEnvNames f o₁ p = getEnvNames f o₂ p := by
  unfold getEnvNames
  rw [h]

/-- checkMinMax only consults the min and max options. -/
theorem checkMinMax_congr (o₁ o₂ : Options)
    (hmin : optLookup o₁ "min" = optLookup o₂ "min")
    (hmax : optLookup o₁ "max" = optLookup o₂ "max")
    (v : NumVal) :
    checkMinMax v o₁ = checkMinMax v o₂ := by
  unfold checkMinMax checkMaxOnly
  rw [hmin, hmax]

/-- setReflectValue only consults the min and max options. -/
theorem setReflectValue_congr (o₁ o₂ : Options)
    (hmin : optLookup o₁ "min" = optLookup o₂ "min")
    (hmax : optLookup o₁ "max" = optLookup o₂ "max")
    (k : Kind) (v : String) :
    setReflectValue v k o₁ = setReflectValue v k o₂ := by
  have hc : ∀ n, checkMinMax n o₁ = checkMinMax n o₂ := checkMinMax_congr o₁ o₂ hmin hmax
  cases k <;> simp only [setReflectValue, hc]

/-- checkForAwsValidation only consults the required option and the four
v_aws options. -/
theorem checkForAwsValidation_congr (o₁ o₂ : Options)
    (hreq : optLookup o₁ "required" = optLookup o₂ "required")
    (hr : optLookup o₁ "v_aws_region" = optLookup o₂ "v_aws_region")
    (ha : optLookup o₁ "v_aws_account_id" = optLookup o₂ "v_aws_account_id")
    (hb : optLookup o₁ "v_aws_bucket_name" = optLookup o₂ "v_aws_bucket_name")
    (harn : optLookup o₁ "v_aws_role_arn" = optLookup o₂ "v_aws_role_arn")
    (fn envVal : String) :
    checkForAwsValidation fn envVal o₁ = checkForAwsValidation fn envVal o₂ := by
  unfold checkForAwsValidation
  rw [hreq]
  have hfil : awsValidatorKeys.filter (fun k => (optLookup o₁ k).isSome)
      = awsValidatorKeys.filter (fun k => (optLookup o₂ k).isSome) := by
    simp only [awsValidatorKeys, List.filter_cons, List.filter_nil, hr, ha, hb, harn]
  rw [hfil]

/-- resolveEnvString only consults the name, notrim, default, required,
lower and upper options. -/
theorem resolveEnvString_congr (o₁ o₂ : Options)
    (hname : optLookup o₁ "name" = optLookup o₂ "name")
    (hnt : optLookup o₁ "notrim" = optLookup o₂ "notrim")
    (hd : optLookup o₁ "default" = optLookup o₂ "default")
    (hreq : optLookup o₁ "required" = optLookup o₂ "required")
    (hlo : optLookup o₁ "lower" = optLookup o₂ "lower")
    (hup : optLookup o₁ "upper" = optLookup o₂ "upper")
    (p : Parser) (env : EnvMap) (fn : String) :
    resolveEnvString p env fn o₁ = resolveEnvString p env fn o₂ := by
  unfold resolveEnvString
  rw [getEnvNames_congr o₁ o₂ fn p hname, hnt, hd, hreq, hlo, hup]

/-- handleSliceWithSeparator only consults the notrim, min and max
options. -/
theorem handleSliceWithSeparator_congr (o₁ o₂ : Options)
    (hnt : optLookup o₁ "notrim" = optLookup o₂ "notrim")
    (hmin : optLookup o₁ "min" = optLookup o₂ "min")
    (hmax : optLookup o₁ "max" = optLookup o₂ "max")
    (envVal sep : String) (k : Kind) :
    handleSliceWithSeparator envVal o₁ sep k = handleSliceWithSeparator envVal o₂ sep k := by
  have hs : ∀ v, setReflectValue v k o₁ = setReflectValue v k o₂ :=
    setReflectValue_congr o₁ o₂ hmin hmax k
  unfold handleSliceWithSeparator
  rw [hnt]
  simp only [hs]

/-- C10: an annotation keyword outside the recognized option set is
silently ignored. Whenever two tags parse to option sets that agree on
every recognized key — as a tag with an extra unknown keyword and the same
tag without it do — the per-field outcome of the Unmarshal loop is
identical for scalar fields, for slice fields, and for a whole struct
whose first field carries the two tags (nested struct fields ignore the
tag entirely), so an unknown keyword never causes an error and never
changes the populated value. -/
theorem c10_unknown_keywords_ignored (p : Parser) (env : EnvMap) (name : String)
    (t₁ t₂ : String)
    (h : ∀ k ∈ recognizedTagKeys, optLookup (parseTag p t₁) k = optLookup (parseTag p t₂) k) :
    (∀ k, processScalarField p env name (some t₁) k
        = processScalarField p env name (some t₂) k)
      ∧ (∀ k, processSliceField p env name (some t₁) k
          = processSliceField p env name (some t₂) k)
      ∧ (∀ (settable : Bool) (ty : FieldType) (rest : Fields),
          unmarshalFields p env (.cons name settable (some t₁) ty rest)
            = unmarshalFields p env (.cons name settable (some t₂) ty rest)) := by
  have hrv := resolveEnvString_congr (parseTag p t₁) (parseTag p t₂)
    (h "name" (by decide)) (h "notrim" (by decide)) (h "default" (by decide))
    (h "required" (by decide)) (h "lower" (by decide)) (h "upper" (by decide)) p env name
  have hval : ∀ v, checkForAwsValidation name v (parseTag p t₁)
      = checkForAwsValidation name v (parseTag p t₂) :=
    checkForAwsValidation_congr (parseTag p t₁) (parseTag p t₂)
      (h "required" (by decide)) (h "v_aws_region" (by decide))
      (h "v_aws_account_id" (by decide)) (h "v_aws_bucket_name" (by decide))
      (h "v_aws_role_arn" (by decide)) name
  have hset : ∀ k v, setReflectValue v k (parseTag p t₁) = setReflectValue v k (parseTag p t₂) :=
    fun k => setReflectValue_congr (parseTag p t₁) (parseTag p t₂)
      (h "min" (by decide)) (h "max" (by decide)) k
  have hsl : ∀ v k, handleSliceWithSeparator v (parseTag p t₁) p.SliceValueSeparator k
      = handleSliceWithSeparator v (parseTag p t₂) p.SliceValueSeparator k :=
    fun v k => handleSliceWithSeparator_congr (parseTag p t₁) (parseTag p t₂)
      (h "notrim" (by decide)) (h "min" (by decide)) (h "max" (by decide)) v
      p.SliceValueSeparator k
  have hsc : ∀ k, processScalarField p env name (some t₁) k
      = processScalarField p env name (some t₂) k := by
    intro k
    simp only [processScalarField, hrv, hval, hset]
  have hslf : ∀ k, processSliceField p env name (some t₁) k
      = processSliceField p env name (some t₂) k := by
    intro k
    simp only [processSliceField, hrv, hsl]
  refine ⟨hsc, hslf, fun settable ty rest => ?_⟩
  cases settable
  · rw [unmarshalFields.eq_def, unmarshalFields.eq_def]
    rfl
  · cases ty with
    | nested fs => rw [unmarshalFields.eq_def, unmarshalFields.eq_def]
    | scalar k =>
      rw [unmarshalFields.eq_def, unmarshalFields.eq_def]
      simp [hsc k]
    | sliceOf k =>
      rw [unmarshalFields.eq_def, unmarshalFields.eq_def]
      simp [hslf k]

/-- Witness for C10 at a concrete field: the tag required,foo (foo is not
a recognized keyword) resolves field Mode exactly as the tag required
does, both as the per-field outcome and inside a one-field struct. -/
theorem c10_unknown_keyword_witness :
    processScalarField NewParser (fun n => if n = "MODE" then "PROD" else "") "Mode"
        (some "required,foo") Kind.kString
      = processScalarField NewParser (fun n => if n = "MODE" then "PROD" else "") "Mode"
        (some "required") Kind.kString :=
  (c10_unknown_keywords_ignored NewParser (fun n => if n = "MODE" then "PROD" else "")
    "Mode" "required,foo" "required" (by decide)).1 Kind.kString

end GoEnv
